import Mathlib

/-!
Verification development for the slide-conversion pipeline
(`slide-convert.py`).  Text is modelled as `List Char`; every Python
string operation used by the converter is embedded as an executable
Lean function on character lists, faithful to CPython semantics
(`str.replace` scans left to right replacing non-overlapping
occurrences; `re` finds the leftmost match at the earliest possible
start position).  Case predicates (`str.isupper`, `str.lower`) are
modelled for the ASCII range that the inputs of this converter use.
-/

set_option maxRecDepth 8000

/-- Python whitespace characters recognised by `str.strip` and the
regex class backslash-s (ASCII range). -/
def py_ws (c : Char) : Bool :=
  c == ' ' || c == '\t' || c == '\n' || c == '\r' || c == '\x0b' || c == '\x0c'

/-- `str.strip()` : remove leading and trailing whitespace. -/
def py_strip (l : List Char) : List Char :=
  ((((l.dropWhile py_ws).reverse).dropWhile py_ws)).reverse

/-- Python substring containment `pat in l`. -/
def contains_sub (p : List Char) : List Char → Bool
  | [] => p.isEmpty
  | l@(_ :: r) => p.isPrefixOf l || contains_sub p r

/-- `text.replace('â€™', "'")` (mojibake apostrophe repair), scanning
left to right over non-overlapping occurrences. -/
def repl_moji1 : List Char → List Char
  | 'â' :: '€' :: '™' :: r => '\'' :: repl_moji1 r
  | c :: r => c :: repl_moji1 r
  | [] => []

/-- `text.replace('â€œ', '"')`. -/
def repl_moji2 : List Char → List Char
  | 'â' :: '€' :: 'œ' :: r => '"' :: repl_moji2 r
  | c :: r => c :: repl_moji2 r
  | [] => []

/-- `text.replace('â€', '"')`. -/
def repl_moji3 : List Char → List Char
  | 'â' :: '€' :: r => '"' :: repl_moji3 r
  | c :: r => c :: repl_moji3 r
  | [] => []

/-- `text.replace('â€˜', "'")`. -/
def repl_moji4 : List Char → List Char
  | 'â' :: '€' :: '˜' :: r => '\'' :: repl_moji4 r
  | c :: r => c :: repl_moji4 r
  | [] => []

/-- `text.replace('\\,', ',')` : escaped-comma artifact removal. -/
def repl_bslash_comma : List Char → List Char
  | '\\' :: ',' :: r => ',' :: repl_bslash_comma r
  | c :: r => c :: repl_bslash_comma r
  | [] => []

/-- `text.replace('\\', '')` : stray-backslash removal. -/
def repl_bslash : List Char → List Char
  | '\\' :: r => repl_bslash r
  | c :: r => c :: repl_bslash r
  | [] => []

/-- Acceptance test for one candidate italics span of
`convert_italics`: the regex group is `[^_\s][^_]*[^_\s]` (at least
two characters, no whitespace at either edge) and the closing
underscore must not be followed by another underscore. -/
def ital_ok (run rest2 : List Char) : Bool :=
  decide (2 ≤ run.length)
    && (match run.head? with | some a => !(py_ws a) | none => false)
    && (match run.getLast? with | some b => !(py_ws b) | none => false)
    && (match rest2.head? with | some c => !(c == '_') | none => true)

/-- One left-to-right scan of the substitution
`re.sub(r'(?<!_)_([^_\s][^_]*[^_\s])_(?!_)', r'*\1*', text)`.
Because the group cannot contain an underscore, a candidate match
opening at an underscore closes exactly at the next underscore, so
the scan is deterministic.  The Boolean argument records whether the
character before the current position in the original string is an
underscore (the negative lookbehind); the fuel argument is an upper
bound on the remaining length, which keeps the recursion structural. -/
def conv_fuel : Nat → Bool → List Char → List Char
  | 0, _, l => l
  | _ + 1, _, [] => []
  | fuel + 1, prevU, c :: cs =>
    if c == '_' && !prevU then
      match cs.dropWhile (fun x => !(x == '_')) with
      | '_' :: rest2 =>
        if ital_ok (cs.takeWhile (fun x => !(x == '_'))) rest2 then
          '*' :: cs.takeWhile (fun x => !(x == '_')) ++ '*' :: conv_fuel fuel false rest2
        else
          c :: conv_fuel fuel true cs
      | _ => c :: conv_fuel fuel true cs
    else
      c :: conv_fuel fuel (c == '_') cs

/-- `convert_italics` : single-underscore spans become
single-asterisk spans. -/
def convert_italics (l : List Char) : List Char :=
  conv_fuel (l.length + 1) false l

/-- `clean_text` : mojibake repair, escaped-comma and backslash
removal, then italics conversion, in the source's order. -/
def clean_text (l : List Char) : List Char :=
  convert_italics (repl_bslash (repl_bslash_comma
    (repl_moji4 (repl_moji3 (repl_moji2 (repl_moji1 l))))))

example : clean_text ("_a_bc_d_".toList) = "_a*bc*d_".toList := by decide
example : clean_text ("_a*bc*d_".toList) = "*a*bc*d*".toList := by decide
example : clean_text ("_ab_".toList) = "*ab*".toList := by decide
example : clean_text ("__ab__".toList) = "__ab__".toList := by decide
example : clean_text ("_ab _cd_".toList) = "_ab *cd*".toList := by decide
example : clean_text ("a\\,b\\c".toList) = "a,bc".toList := by decide
example : clean_text ("â€™â€œâ€â€˜".toList) = "'\"\"\"˜".toList := by decide

/-- `content.split('\n')`. -/
def split_nl : List Char → List (List Char)
  | [] => [[]]
  | '\n' :: r =>
    match split_nl r with
    | t => [] :: t
  | c :: r =>
    match split_nl r with
    | h :: t => (c :: h) :: t
    | [] => [[c]]

/-- `markdown_content.split('---')` (leftmost, non-overlapping). -/
def split_dashes : List Char → List (List Char)
  | '-' :: '-' :: '-' :: r => [] :: split_dashes r
  | c :: r =>
    match split_dashes r with
    | h :: t => (c :: h) :: t
    | [] => [[c]]
  | [] => [[]]

/-- `clean_path.split('/')[-1]` : the final path segment. -/
def last_seg (l : List Char) : List Char :=
  (l.reverse.takeWhile (fun c => !(c == '/'))).reverse

/-- `original_path.replace('%5C', '/')` : decode encoded backslash
separators into forward slashes. -/
def repl_enc_bslash : List Char → List Char
  | '%' :: '5' :: 'C' :: r => '/' :: repl_enc_bslash r
  | c :: r => c :: repl_enc_bslash r
  | [] => []

/-- `presentation_name.replace(' ', '%20')` : the converter's URL
encoding, limited to spaces. -/
def repl_space : List Char → List Char
  | ' ' :: r => '%' :: '2' :: '0' :: repl_space r
  | c :: r => c :: repl_space r
  | [] => []

/-- One decimal digit as a character. -/
def digit_char (d : Nat) : Char := Char.ofNat (48 + d)

/-- Fueled decimal rendering (the fuel is an upper bound on the
number of digits; `nat_digits` supplies enough). -/
def nat_digits_aux : Nat → Nat → List Char → List Char
  | 0, _, acc => acc
  | fuel + 1, n, acc =>
    if n < 10 then digit_char n :: acc
    else nat_digits_aux fuel (n / 10) (digit_char (n % 10) :: acc)

/-- Python `str(slide_number)` for a non-negative integer. -/
def nat_digits (n : Nat) : List Char := nat_digits_aux (n + 1) n []

/-- The regex `!\[([^\]]*)\]\(([^)]+)\)` tried at the current
position: returns the alt-text and path groups.  The alt group
cannot contain a closing bracket and the path group cannot contain a
closing parenthesis, so both are cut at the first such delimiter. -/
def img_here : List Char → Option (List Char × List Char)
  | '!' :: '[' :: r =>
    match r.dropWhile (fun c => !(c == ']')) with
    | ']' :: '(' :: r2 =>
      match r2.takeWhile (fun c => !(c == ')')), r2.dropWhile (fun c => !(c == ')')) with
      | [], _ => none
      | path, ')' :: _ => some (r.takeWhile (fun c => !(c == ']')), path)
      | _, _ => none
    | _ => none
  | _ => none

/-- `image_pattern.search(line)` : leftmost match of the inline
image regex, returning the two groups. -/
def img_search : List Char → Option (List Char × List Char)
  | [] => none
  | l@(_ :: r) =>
    match img_here l with
    | some x => some x
    | none => img_search r

/-- The canonical asset path built by `convert_image_path`:
`./img/{encoded name}/{filename}`, falling back to
`slide_{n}.png` when the decoded path has an empty final segment. -/
def simple_path (clean_path pname : List Char) (n : Nat) : List Char :=
  "./img/".toList ++ repl_space pname ++
    '/' :: (if last_seg clean_path = [] then "slide_".toList ++ nat_digits n ++ ".png".toList
            else last_seg clean_path)

/-- `convert_image_path` : rewrite the first inline image reference
of a line to the canonical asset path; lines without a recognizable
reference pass through unchanged. -/
def convert_image_path (line pname : List Char) (n : Nat) : List Char :=
  match img_search line with
  | none => line
  | some (alt, path) =>
    "![".toList ++ alt ++ "](".toList ++ simple_path (repl_enc_bslash path) pname n ++ ")".toList

example : convert_image_path ("![](media/img1%5Cpic1.png)".toList) ("CS 101".toList) 1
    = "![](./img/CS%20101/pic1.png)".toList := by decide
example : convert_image_path ("![a%5Cb](c%5Cd.png)".toList) ("P".toList) 1
    = "![a%5Cb](./img/P/d.png)".toList := by decide
example : convert_image_path ("no image here".toList) ("P".toList) 1
    = "no image here".toList := by decide
example : convert_image_path ("![x](a%5C)".toList) ("P".toList) 3
    = "![x](./img/P/slide_3.png)".toList := by decide

/-- `suffix.isSuffixOf l` as used for `str.endswith` and for the
document-terminator check: compare the tail of `l` against `m`. -/
def ends_list (l m : List Char) : Bool :=
  m.isPrefixOf (l.drop (l.length - m.length)) && decide (m.length ≤ l.length)

/-- `line.startswith('__') and line.endswith('__') and len(line) > 4` :
the bold-header test of the per-line classifier. -/
def header_cond (l : List Char) : Bool :=
  "__".toList.isPrefixOf l && ends_list l ("__".toList) && decide (4 < l.length)

/-- `line.strip('_')` : remove all leading and trailing underscores. -/
def strip_unders (l : List Char) : List Char :=
  (((l.dropWhile (fun c => c == '_')).reverse).dropWhile (fun c => c == '_')).reverse

/-- `re.match(r'^\s*\*\s*__([^_]+)__(.*)$', line)` : a bullet marker,
then a double-underscore bold span (one or more non-underscore
characters closed by exactly two underscores), then the rest of the
line.  Returns the bold span and the rest. -/
def bullet_match (l : List Char) : Option (List Char × List Char) :=
  match (l.dropWhile py_ws) with
  | '*' :: r =>
    match (r.dropWhile py_ws) with
    | '_' :: '_' :: r2 =>
      match r2.takeWhile (fun c => !(c == '_')), r2.dropWhile (fun c => !(c == '_')) with
      | [], _ => none
      | bold, '_' :: '_' :: rest => some (bold, rest)
      | _, _ => none
    | _ => none
  | _ => none

/-- Rendering of a bullet with a recognised bold span:
`f"* **{bold}**{rest}"`, or without the rest when it strips to
nothing. -/
def bullet_render (bold rest : List Char) : List Char :=
  if rest = [] then "* **".toList ++ bold ++ "**".toList
  else "* **".toList ++ bold ++ "**".toList ++ rest

/-- `re.sub(r'[*_]', '', line).strip()` : the emphasis-stripped,
trimmed line fed to the header heuristic. -/
def heur_clean (l : List Char) : List Char :=
  py_strip (l.filter (fun c => !(c == '*' || c == '_')))

/-- ASCII `str.lower`. -/
def py_lower (l : List Char) : List Char :=
  l.map (fun c => if 'A' ≤ c && c ≤ 'Z' then Char.ofNat (c.toNat + 32) else c)

/-- ASCII `str.isupper` : at least one cased character and no
lowercase character. -/
def py_isupper (l : List Char) : Bool :=
  l.any (fun c => ('A' ≤ c && c ≤ 'Z') || ('a' ≤ c && c ≤ 'z'))
    && l.all (fun c => !('a' ≤ c && c ≤ 'z'))

/-- `any(keyword in cleaned_line.lower() for keyword in
['history', 'what is', 'why', 'how'])`. -/
def keyword_hit (cl : List Char) : Bool :=
  contains_sub ("history".toList) (py_lower cl)
    || contains_sub ("what is".toList) (py_lower cl)
    || contains_sub ("why".toList) (py_lower cl)
    || contains_sub ("how".toList) (py_lower cl)

/-- The header heuristic applied to the emphasis-stripped line:
shorter than 100 characters and (all caps or keyword hit). -/
def heur_cond (cl : List Char) : Bool :=
  decide (cl.length < 100) && (py_isupper cl || keyword_hit cl)

/-- The non-image classification chain of
`process_content_for_slide` (source lines 122-156) applied to one
stripped line: bold header, bullet (with or without bold span), or
the header heuristic / pass-through. -/
def render_line (line : List Char) : List Char :=
  if header_cond line then
    "# ".toList ++ clean_text (strip_unders line)
  else if ("*".toList).isPrefixOf line then
    (if contains_sub ("__".toList) line then
      (match bullet_match line with
       | some (bold, rest) => bullet_render bold (py_strip rest)
       | none => line)
     else line)
  else
    (if !line.isEmpty && !(("#".toList).isPrefixOf line) then
      (if heur_cond (heur_clean line) then "# ".toList ++ heur_clean line else line)
     else line)

/-- The per-line loop of `process_content_for_slide`: strip each
line, skip blank lines, divert image lines (converted) into the
image list and render every other line into the body list. -/
def slide_lines (pname : List Char) (n : Nat) : List (List Char) → List (List Char) × List (List Char)
  | [] => ([], [])
  | raw :: rest =>
    if py_strip raw = [] then slide_lines pname n rest
    else if (img_search (py_strip raw)).isSome then
      ((slide_lines pname n rest).1,
        convert_image_path (py_strip raw) pname n :: (slide_lines pname n rest).2)
    else
      (render_line (py_strip raw) :: (slide_lines pname n rest).1,
        (slide_lines pname n rest).2)

/-- The body compaction of `process_content_for_slide` (source lines
160-169): keep non-blank lines, replace each run of blank lines by a
single empty line.  The Boolean records whether the previous kept
position was a blank. -/
def cleanup_aux : Bool → List (List Char) → List (List Char)
  | _, [] => []
  | prevE, l :: rest =>
    if !(py_strip l).isEmpty then l :: cleanup_aux false rest
    else if !prevE then [] :: cleanup_aux true rest
    else cleanup_aux true rest

/-- `cleaned_main` : compaction of the assembled body list. -/
def cleanup_main (m : List (List Char)) : List (List Char) :=
  cleanup_aux false m

/-- `process_content_for_slide` : normalize the whole block, split
into lines, classify, compact, and choose the layout: `two-cols`
with a right-column image block when any image was found, otherwise
`default`. -/
def process_content_for_slide (content pname : List Char) (n : Nat) : List Char × String :=
  if ((slide_lines pname n (split_nl (clean_text content))).2).isEmpty then
    (List.intercalate ("\n".toList)
      (cleanup_main (slide_lines pname n (split_nl (clean_text content))).1), "default")
  else
    (List.intercalate ("\n".toList)
      (cleanup_main (slide_lines pname n (split_nl (clean_text content))).1)
      ++ "\n\n::right::\n\n".toList
      ++ List.intercalate ("\n\n".toList) (slide_lines pname n (split_nl (clean_text content))).2,
      "two-cols")

example : process_content_for_slide ("**DATABASE SYSTEMS**\n\n* Intro to course".toList) ("P".toList) 1
    = ("**DATABASE SYSTEMS**\n* Intro to course".toList, "default") := by decide
example : process_content_for_slide ("Why do we need transactions?".toList) ("P".toList) 1
    = ("# Why do we need transactions?".toList, "default") := by decide
example : process_content_for_slide ("Does it end?".toList) ("P".toList) 1
    = ("Does it end?".toList, "default") := by decide
example : process_content_for_slide ("This sentence passes through.".toList) ("P".toList) 1
    = ("This sentence passes through.".toList, "default") := by decide
example : process_content_for_slide ("text\n![](a%5Cb.png)".toList) ("CS 101".toList) 2
    = ("text\n\n::right::\n\n![](./img/CS%20101/b.png)".toList, "two-cols") := by decide

/-- The per-slide separator chosen by `convert_to_slidev` (source
lines 222-228) from the layout returned for the slide. -/
def sep_for (layout : String) : List Char :=
  if layout = "full" then "---\nlayout: full\n---\n\n".toList
  else if layout = "two-cols" then "---\n\n".toList
  else "---\n\n".toList

/-- `create_slidev_header` : the fixed frontmatter block followed by
the title heading. -/
def create_slidev_header (title : List Char) : List Char :=
  "---\ndefaults:\n  layout: two-cols\nmdc: true\nfonts:\n  mono: Cascadia Mono\n  sans: Atkinson Hyperlegible\nlayout: cover\n---\n\n# ".toList
    ++ title ++ "\n".toList

/-- The terminating separator appended when at least one slide was
emitted. -/
def end_mark : List Char := "---\nlayout: end\n---\n".toList

/-- The slide-emission loop of `convert_to_slidev`: strip each
candidate block, skip empty or short (< 10 characters) blocks and
blocks whose processed content strips to nothing, and emit separator
plus content for the rest.  Returns the emitted text and the final
processed-slide count; the running count plus one is the slide
number passed to `process_content_for_slide`. -/
def slide_loop (pname : List Char) : List (List Char) → Nat → List Char × Nat
  | [], n => ([], n)
  | b :: rest, n =>
    if py_strip b = [] then slide_loop pname rest n
    else if (py_strip b).length < 10 then slide_loop pname rest n
    else if py_strip (process_content_for_slide (py_strip b) pname (n + 1)).1 = [] then
      slide_loop pname rest n
    else
      (sep_for (process_content_for_slide (py_strip b) pname (n + 1)).2
         ++ (process_content_for_slide (py_strip b) pname (n + 1)).1
         ++ "\n\n".toList ++ (slide_loop pname rest (n + 1)).1,
       (slide_loop pname rest (n + 1)).2)

/-- `convert_to_slidev` : split the raw document on the `---`
delimiter, run the slide loop, and append the `layout: end`
terminator exactly when at least one slide was emitted. -/
def convert_to_slidev (md title pname : List Char) : List Char :=
  create_slidev_header title
    ++ (slide_loop pname (split_dashes md) 0).1
    ++ (if 0 < (slide_loop pname (split_dashes md) 0).2 then end_mark else [])

/-- `detect_slide_type` : the dead layout heuristic; the only
producer of the `full` layout, with no caller in the converter. -/
def detect_slide_type (content : List Char) : String :=
  if decide ((((split_nl content).map py_strip).filter (fun l => !l.isEmpty)).length ≤ 3)
      && (((split_nl content).map py_strip).filter (fun l => !l.isEmpty)).any
           (fun l => contains_sub ("Database Systems".toList) l
                      || contains_sub ("CSCI".toList) l) then "cover"
  else if (img_search content).isSome then "two-cols"
  else if decide (800 < content.length) then "full"
  else "default"

example : convert_to_slidev ([]) ("T".toList) ("P".toList)
    = create_slidev_header ("T".toList) := by decide
example : convert_to_slidev ("short---A longer slide block".toList) ("T".toList) ("P".toList)
    = create_slidev_header ("T".toList)
      ++ "---\n\nA longer slide block\n\n".toList ++ end_mark := by decide

/-- No two adjacent entries of a body list are both blank. -/
def no_two_blanks : List (List Char) → Bool
  | [] => true
  | [_] => true
  | a :: b :: r =>
    !((py_strip a).isEmpty && (py_strip b).isEmpty) && no_two_blanks (b :: r)

/-- The layout component of `process_content_for_slide` depends only
on whether the image list is empty. -/
theorem process_snd_eq (content pname : List Char) (n : Nat) :
    (process_content_for_slide content pname n).2
      = if ((slide_lines pname n (split_nl (clean_text content))).2).isEmpty
        then "default" else "two-cols" := by
  unfold process_content_for_slide
  split
  case isTrue h => simp [h]
  case isFalse h => simp [h]

/-- Claim C1.  The spec requires `clean_text` to be idempotent, but
on the input `_a_bc_d_` the italics substitution produces
`_a*bc*d_`, and a second application matches the span between the
two surviving underscores (the inner underscores having been
consumed), producing `*a*bc*d*`: the code violates the contract. -/
theorem clean_text_breaks_idempotence :
    clean_text ("_a_bc_d_".toList) = "_a*bc*d_".toList
    ∧ clean_text (clean_text ("_a_bc_d_".toList)) = "*a*bc*d*".toList
    ∧ clean_text (clean_text ("_a_bc_d_".toList)) ≠ clean_text ("_a_bc_d_".toList) := by
  refine ⟨by decide, by decide, by decide⟩

/-- Claim C2.  The layout of a processed slide is `two-cols` exactly
when its image list is non-empty, and the only other layout value is
`default`. -/
theorem layout_iff_images (content pname : List Char) (n : Nat) :
    ((process_content_for_slide content pname n).2 = "two-cols"
      ↔ (slide_lines pname n (split_nl (clean_text content))).2 ≠ [])
    ∧ ((process_content_for_slide content pname n).2 = "two-cols"
       ∨ (process_content_for_slide content pname n).2 = "default") := by
  rw [process_snd_eq]
  by_cases h : (slide_lines pname n (split_nl (clean_text content))).2 = []
  · simp [h]
  · simp [h, List.isEmpty_iff]

/-- Claim C2 witness at a concrete input (an image-bearing block). -/
theorem layout_iff_images_witness :
    ((process_content_for_slide ("![](a%5Cb.png)".toList) ("P".toList) 1).2 = "two-cols"
      ↔ (slide_lines ("P".toList) 1 (split_nl (clean_text ("![](a%5Cb.png)".toList)))).2 ≠ [])
    ∧ ((process_content_for_slide ("![](a%5Cb.png)".toList) ("P".toList) 1).2 = "two-cols"
       ∨ (process_content_for_slide ("![](a%5Cb.png)".toList) ("P".toList) 1).2 = "default") :=
  layout_iff_images ("![](a%5Cb.png)".toList) ("P".toList) 1

/-- Claim C10.  The layout returned by `process_content_for_slide`
is always `two-cols` or `default`, so the separator emitted for a
processed slide is always the plain `---`, never one carrying a
`layout: full` directive. -/
theorem layout_never_full (content pname : List Char) (n : Nat) :
    ((process_content_for_slide content pname n).2 = "two-cols"
      ∨ (process_content_for_slide content pname n).2 = "default")
    ∧ sep_for (process_content_for_slide content pname n).2 = "---\n\n".toList := by
  rw [process_snd_eq]
  by_cases h : ((slide_lines pname n (split_nl (clean_text content))).2).isEmpty
  · rw [if_pos h]
    exact ⟨Or.inr rfl, by decide⟩
  · rw [if_neg h]
    exact ⟨Or.inl rfl, by decide⟩

/-- Claim C3 counterexample.  The block of Scenario A is processed
into the body `**DATABASE SYSTEMS**` / `* Intro to course` with
layout `default`: the bold-asterisk line is treated as a bullet (the
header test looks for double underscores only) and the bullet keeps
its stripped form with no 2-space indent, contradicting the claimed
`# DATABASE SYSTEMS` / `  * Intro to course` rendering. -/
theorem bullet_indent_counterexample :
    process_content_for_slide ("**DATABASE SYSTEMS**\n\n* Intro to course".toList) ("P".toList) 1
      = ("**DATABASE SYSTEMS**\n* Intro to course".toList, "default")
    ∧ process_content_for_slide ("**DATABASE SYSTEMS**\n\n* Intro to course".toList) ("P".toList) 1
      ≠ ("# DATABASE SYSTEMS\n  * Intro to course".toList, "default") := by
  refine ⟨by decide, by decide⟩

/-- Claim C3 amended.  Every line whose stripped form starts with
`*` is rendered flush left with its `*` marker first — no fixed
2-space indent (or any indent) is ever added: the rendering is
either the stripped line verbatim, or, when the line carries a
double-underscore bold span matching the bullet-bold pattern, the
rewritten `* **{bold}**{rest}` form with the rest stripped; Scenario
A yields the two pass-through lines with layout `default`. -/
theorem bullet_flat_amended :
    (∀ l : List Char, l.head? = some '*' →
        (render_line l).head? = some '*'
        ∧ (render_line l = l
            ∨ ∃ bold rest : List Char,
                bullet_match l = some (bold, rest)
                ∧ render_line l = bullet_render bold (py_strip rest)))
    ∧ render_line ("* __Intro__ text".toList) = "* **Intro**text".toList
    ∧ process_content_for_slide ("**DATABASE SYSTEMS**\n\n* Intro to course".toList) ("P".toList) 1
      = ("**DATABASE SYSTEMS**\n* Intro to course".toList, "default") := by
  have hbr : ∀ bold rest2 : List Char, (bullet_render bold rest2).head? = some '*' := by
    intro bold rest2
    rw [bullet_render]
    by_cases hr : rest2 = []
    · rw [if_pos hr]
      rfl
    · rw [if_neg hr]
      rfl
  refine ⟨?_, by decide, by decide⟩
  intro l h1
  rcases l with _ | ⟨c, t⟩
  · simp at h1
  · simp only [List.head?_cons, Option.some.injEq] at h1
    subst h1
    have e1 : (('_' : Char) == '*') = false := by decide
    have e2 : (('*' : Char) == '*') = true := by decide
    by_cases hus : contains_sub (['_', '_']) ('*' :: t) = true
    · cases hbm : bullet_match ('*' :: t) with
      | none =>
        have hrl : render_line ('*' :: t) = '*' :: t := by
          simp [render_line, header_cond, List.isPrefixOf, e1, e2, hus, hbm]
        rw [hrl]
        exact ⟨rfl, Or.inl rfl⟩
      | some pr =>
        obtain ⟨bold, rest⟩ := pr
        have hrl : render_line ('*' :: t) = bullet_render bold (py_strip rest) := by
          simp [render_line, header_cond, List.isPrefixOf, e1, e2, hus, hbm]
        rw [hrl]
        exact ⟨hbr bold (py_strip rest), Or.inr ⟨bold, rest, rfl, rfl⟩⟩
    · have hus2 : contains_sub (['_', '_']) ('*' :: t) = false := by
        rw [Bool.eq_false_iff]
        exact hus
      have hrl : render_line ('*' :: t) = '*' :: t := by
        simp [render_line, header_cond, List.isPrefixOf, e1, e2, hus2]
      rw [hrl]
      exact ⟨rfl, Or.inl rfl⟩

/-- Claim C4 counterexample.  The line `Does it end?` ends with a
question mark, reaches the header heuristic, and is left unchanged —
there is no question-mark rule in the code, only the length/caps/
keyword test. -/
theorem question_header_counterexample :
    process_content_for_slide ("Does it end?".toList) ("P".toList) 1
      = ("Does it end?".toList, "default")
    ∧ process_content_for_slide ("Does it end?".toList) ("P".toList) 1
      ≠ ("# Does it end?".toList, "default") := by
  refine ⟨by decide, by decide⟩

/-- Claim C4 amended.  A line reaching the header heuristic is
rendered as a header exactly when its emphasis-stripped trimmed form
is shorter than 100 characters and is all-caps or contains one of
the keywords `history`, `what is`, `why`, `how`; a trailing question
mark plays no role.  Scenario B still holds, via the keyword `why`. -/
theorem header_heuristic_amended :
    (∀ l : List Char, header_cond l = false → ("*".toList).isPrefixOf l = false →
        ("#".toList).isPrefixOf l = false → l ≠ [] →
        (render_line l = "# ".toList ++ heur_clean l ↔ heur_cond (heur_clean l) = true))
    ∧ process_content_for_slide ("Why do we need transactions?".toList) ("P".toList) 1
      = ("# Why do we need transactions?".toList, "default") := by
  constructor
  · intro l h1 h2 h3 h4
    have hne : l.isEmpty = false := by
      rcases l with _ | _
      · exact absurd rfl h4
      · rfl
    rw [render_line, if_neg (by rw [h1]; simp), if_neg (by rw [h2]; simp)]
    rw [if_pos (by rw [hne, h3]; rfl)]
    constructor
    · intro he
      by_contra hc
      rw [if_neg (by simp [hc])] at he
      have : ("#".toList).isPrefixOf l = true := by
        rw [he]
        simp [List.isPrefixOf]
      rw [h3] at this
      exact Bool.false_ne_true this
    · intro hc
      rw [if_pos hc]
  · decide

/-- Claim C4 amended witness: Scenario B's line satisfies the
heuristic (keyword `why`), so the equivalence fires positively. -/
theorem header_heuristic_amended_witness :
    header_cond ("Why do we need transactions?".toList) = false
    ∧ heur_cond (heur_clean ("Why do we need transactions?".toList)) = true
    ∧ (render_line ("Why do we need transactions?".toList)
        = "# ".toList ++ heur_clean ("Why do we need transactions?".toList)
       ↔ heur_cond (heur_clean ("Why do we need transactions?".toList)) = true) :=
  ⟨by decide, by decide,
    (header_heuristic_amended.1 ("Why do we need transactions?".toList)
      (by decide) (by decide) (by decide) (by decide))⟩

/-- Claim C5 counterexample.  The paragraph line
`This sentence passes through.` matches no classification rule and
is appended unchanged — it is not rendered as a bullet item. -/
theorem paragraph_bullet_counterexample :
    process_content_for_slide ("This sentence passes through.".toList) ("P".toList) 1
      = ("This sentence passes through.".toList, "default")
    ∧ ("*".toList).isPrefixOf
        (process_content_for_slide ("This sentence passes through.".toList) ("P".toList) 1).1
      = false := by
  refine ⟨by decide, by decide⟩

/-- Claim C5 amended.  A line classified as a paragraph (no bold
header, no bullet marker, and either already a heading-marker line
or failing the header heuristic) is appended unchanged, not promoted
to a bullet item. -/
theorem paragraph_passthrough_amended :
    ∀ l : List Char, header_cond l = false → ("*".toList).isPrefixOf l = false →
      (("#".toList).isPrefixOf l = true ∨ heur_cond (heur_clean l) = false) →
      render_line l = l := by
  intro l h1 h2 h3
  rw [render_line, if_neg (by rw [h1]; simp), if_neg (by rw [h2]; simp)]
  rcases h3 with h3 | h3
  · rw [if_neg (by rw [h3]; simp)]
  · by_cases hne : l.isEmpty
    · rw [if_neg (by rw [hne]; simp)]
    · by_cases hh : ("#".toList).isPrefixOf l
      · rw [if_neg (by rw [hh]; simp)]
      · have hne' : l.isEmpty = false := by simpa using hne
        have hh' : ("#".toList).isPrefixOf l = false := by
          rw [Bool.eq_false_iff]
          exact hh
        rw [if_pos (by rw [hne', hh']; rfl), if_neg (by rw [h3]; simp)]

/-- Claim C5 amended witness at the concrete paragraph line. -/
theorem paragraph_passthrough_amended_witness :
    header_cond ("This sentence passes through.".toList) = false
    ∧ heur_cond (heur_clean ("This sentence passes through.".toList)) = false
    ∧ render_line ("This sentence passes through.".toList)
        = "This sentence passes through.".toList :=
  ⟨by decide, by decide,
    paragraph_passthrough_amended ("This sentence passes through.".toList)
      (by decide) (by decide) (Or.inr (by decide))⟩

/-- Claim C3 amended witness: a concrete bullet line is rendered
flush left, as itself or in the rewritten bold form. -/
theorem bullet_flat_amended_witness :
    ("* Intro to course".toList).head? = some '*'
    ∧ ((render_line ("* Intro to course".toList)).head? = some '*'
       ∧ (render_line ("* Intro to course".toList) = "* Intro to course".toList
          ∨ ∃ bold rest : List Char,
              bullet_match ("* Intro to course".toList) = some (bold, rest)
              ∧ render_line ("* Intro to course".toList)
                  = bullet_render bold (py_strip rest))) :=
  ⟨by decide, bullet_flat_amended.1 ("* Intro to course".toList) (by decide)⟩

/-- A line kept verbatim by the compaction is non-blank, so the
output of `cleanup_aux` under the previous-was-blank flag never
starts with a blank line. -/
theorem cleanup_aux_true_head (m : List (List Char)) :
    (match cleanup_aux true m with
     | [] => true
     | a :: _ => !(py_strip a).isEmpty) = true := by
  induction m with
  | nil => rfl
  | cons l rest ih =>
    rw [cleanup_aux]
    by_cases h : (py_strip l).isEmpty
    · rw [if_neg (by rw [h]; simp)]
      simpa using ih
    · have h' : (py_strip l).isEmpty = false := by rw [Bool.eq_false_iff]; exact h
      rw [if_pos (by rw [h']; rfl)]
      simp [h']

/-- `no_two_blanks` only inspects adjacent pairs, so a non-blank (or
pair-safe) head can be prepended to a safe list. -/
theorem no_two_blanks_cons (a : List Char) (t : List (List Char))
    (hh : (!(py_strip a).isEmpty) = true
          ∨ (match t with | [] => true | b :: _ => !(py_strip b).isEmpty) = true)
    (ht : no_two_blanks t = true) : no_two_blanks (a :: t) = true := by
  cases t with
  | nil => rfl
  | cons b r =>
    rw [no_two_blanks, ht, Bool.and_true]
    rcases hh with hh | hh
    · rw [Bool.not_eq_true'] at hh
      rw [hh]
      rfl
    · have hh2 : (!(py_strip b).isEmpty) = true := hh
      rw [Bool.not_eq_true'] at hh2
      rw [hh2, Bool.and_false]
      rfl

/-- The compaction never leaves two adjacent blank lines, whatever
the incoming flag. -/
theorem cleanup_aux_no_two_blanks (m : List (List Char)) :
    ∀ flag, no_two_blanks (cleanup_aux flag m) = true := by
  induction m with
  | nil => intro flag; rfl
  | cons l rest ih =>
    intro flag
    rw [cleanup_aux]
    by_cases h : (py_strip l).isEmpty
    · rw [if_neg (by rw [h]; simp)]
      by_cases hf : flag
      · rw [hf, if_neg (by simp)]
        exact ih true
      · have hf' : flag = false := by rw [Bool.eq_false_iff]; exact hf
        rw [hf', if_pos (by simp)]
        refine no_two_blanks_cons _ _ (Or.inr ?_) (ih true)
        exact cleanup_aux_true_head rest
    · have h' : (py_strip l).isEmpty = false := by rw [Bool.eq_false_iff]; exact h
      rw [if_pos (by rw [h']; rfl)]
      refine no_two_blanks_cons _ _ (Or.inl (by rw [h']; rfl)) (ih false)

/-- The compaction keeps exactly the non-blank lines, in order and
verbatim, whatever the incoming flag. -/
theorem cleanup_aux_filter (m : List (List Char)) :
    ∀ flag, (cleanup_aux flag m).filter (fun l => !(py_strip l).isEmpty)
      = m.filter (fun l => !(py_strip l).isEmpty) := by
  induction m with
  | nil => intro flag; rfl
  | cons l rest ih =>
    intro flag
    rw [cleanup_aux]
    by_cases h : (py_strip l).isEmpty
    · rw [if_neg (by rw [h]; simp)]
      by_cases hf : flag
      · rw [hf, if_neg (by simp)]
        rw [ih true, List.filter_cons_of_neg (by rw [h]; decide)]
      · have hf' : flag = false := by rw [Bool.eq_false_iff]; exact hf
        rw [hf', if_pos (by simp)]
        rw [List.filter_cons_of_neg (by decide), ih true,
          List.filter_cons_of_neg (by rw [h]; decide)]
    · have h' : (py_strip l).isEmpty = false := by rw [Bool.eq_false_iff]; exact h
      rw [if_pos (by rw [h']; rfl)]
      rw [List.filter_cons_of_pos (by rw [h']; rfl), ih false,
        List.filter_cons_of_pos (by rw [h']; rfl)]

/-- Claim C6 counterexample.  Compacting a body list whose second
line exactly duplicates its predecessor keeps both copies: the
compaction only collapses blank runs, it never drops duplicate
non-blank lines. -/
theorem dedup_counterexample :
    cleanup_main (["dup".toList, "dup".toList])
      = ["dup".toList, "dup".toList]
    ∧ cleanup_main (["dup".toList, "dup".toList]) ≠ ["dup".toList] := by
  refine ⟨by decide, by decide⟩

/-- Claim C6 amended.  The compaction collapses every run of blank
lines to at most one blank line (no two adjacent output entries are
blank) and keeps all non-blank lines verbatim — duplicates of the
immediate predecessor included. -/
theorem compact_blanks_amended :
    (∀ m : List (List Char), no_two_blanks (cleanup_main m) = true)
    ∧ (∀ m : List (List Char),
        (cleanup_main m).filter (fun l => !(py_strip l).isEmpty)
          = m.filter (fun l => !(py_strip l).isEmpty)) :=
  ⟨fun m => cleanup_aux_no_two_blanks m false, fun m => cleanup_aux_filter m false⟩

/-- Claim C8.  A candidate block whose stripped form is shorter than
10 characters is skipped by the slide loop without any effect on the
emitted text or the slide counter: inserting it anywhere among the
blocks leaves the output unchanged. -/
theorem short_block_dropped (pname b : List Char) (hb : (py_strip b).length < 10) :
    ∀ (pre post : List (List Char)) (n : Nat),
      slide_loop pname (pre ++ b :: post) n = slide_loop pname (pre ++ post) n := by
  intro pre
  induction pre with
  | nil =>
    intro post n
    simp only [List.nil_append]
    by_cases h : py_strip b = []
    · rw [slide_loop, if_pos h]
    · rw [slide_loop, if_neg h, if_pos hb]
  | cons a pre ih =>
    intro post n
    simp only [List.cons_append, slide_loop, List.append_eq]
    by_cases h1 : py_strip a = []
    · rw [if_pos h1, if_pos h1, ih]
    · rw [if_neg h1, if_neg h1]
      by_cases h2 : (py_strip a).length < 10
      · rw [if_pos h2, if_pos h2, ih]
      · rw [if_neg h2, if_neg h2]
        by_cases h3 : py_strip (process_content_for_slide (py_strip a) pname (n + 1)).1 = []
        · rw [if_pos h3, if_pos h3, ih]
        · rw [if_neg h3, if_neg h3, ih]

/-- Claim C8 witness: dropping the concrete short block ` tiny `
between two kept blocks changes nothing. -/
theorem short_block_dropped_witness :
    (py_strip (" tiny ".toList)).length < 10
    ∧ slide_loop ("P".toList)
        (["A first long block".toList] ++ " tiny ".toList :: ["A second long block".toList]) 0
      = slide_loop ("P".toList)
        (["A first long block".toList] ++ ["A second long block".toList]) 0 :=
  ⟨by decide,
    short_block_dropped ("P".toList) (" tiny ".toList) (by decide)
      ["A first long block".toList] ["A second long block".toList] 0⟩

/-- The slide counter never decreases along the loop. -/
theorem slide_loop_count_le (pname : List Char) :
    ∀ (bs : List (List Char)) (n : Nat), n ≤ (slide_loop pname bs n).2 := by
  intro bs
  induction bs with
  | nil => intro n; exact Nat.le_refl n
  | cons b rest ih =>
    intro n
    rw [slide_loop]
    by_cases h1 : py_strip b = []
    · rw [if_pos h1]; exact ih n
    · rw [if_neg h1]
      by_cases h2 : (py_strip b).length < 10
      · rw [if_pos h2]; exact ih n
      · rw [if_neg h2]
        by_cases h3 : py_strip (process_content_for_slide (py_strip b) pname (n + 1)).1 = []
        · rw [if_pos h3]; exact ih n
        · rw [if_neg h3]
          exact Nat.le_trans (Nat.le_succ n) (ih (n + 1))

/-- If the loop emits no slide (the counter comes back unchanged),
the emitted text is empty. -/
theorem slide_loop_body_nil (pname : List Char) :
    ∀ (bs : List (List Char)) (n : Nat),
      (slide_loop pname bs n).2 = n → (slide_loop pname bs n).1 = [] := by
  intro bs
  induction bs with
  | nil => intro n _; rfl
  | cons b rest ih =>
    intro n h
    rw [slide_loop] at h ⊢
    by_cases h1 : py_strip b = []
    · rw [if_pos h1] at h ⊢; exact ih n h
    · rw [if_neg h1] at h ⊢
      by_cases h2 : (py_strip b).length < 10
      · rw [if_pos h2] at h ⊢; exact ih n h
      · rw [if_neg h2] at h ⊢
        by_cases h3 : py_strip (process_content_for_slide (py_strip b) pname (n + 1)).1 = []
        · rw [if_pos h3] at h ⊢; exact ih n h
        · rw [if_neg h3] at h
          have hle := slide_loop_count_le pname rest (n + 1)
          simp only at h
          omega

/-- Reflexivity of the Boolean prefix test. -/
theorem isPref_self : ∀ m : List Char, m.isPrefixOf m = true := by
  intro m
  induction m with
  | nil => rfl
  | cons c r ih => simp [List.isPrefixOf, ih]

/-- Any list ends with itself appended to anything. -/
theorem ends_append (x m : List Char) : ends_list (x ++ m) m = true := by
  rw [ends_list]
  have h1 : (x ++ m).length - m.length = x.length := by
    rw [List.length_append]
    omega
  rw [h1, List.drop_left, isPref_self m]
  simp [List.length_append]

/-- Claim C9.  Provided the frontmatter-plus-title header does not
itself end with the terminator text (true of any ordinary title),
the converted document ends with the `layout: end` separator exactly
when at least one content slide was emitted, and with zero emitted
slides the document is exactly the header. -/
theorem end_slide_iff (md title pname : List Char)
    (h : ends_list (create_slidev_header title) end_mark = false) :
    (ends_list (convert_to_slidev md title pname) end_mark = true
      ↔ 0 < (slide_loop pname (split_dashes md) 0).2)
    ∧ ((slide_loop pname (split_dashes md) 0).2 = 0 →
        convert_to_slidev md title pname = create_slidev_header title) := by
  by_cases hc : (slide_loop pname (split_dashes md) 0).2 = 0
  · have hb := slide_loop_body_nil pname (split_dashes md) 0 hc
    have he : convert_to_slidev md title pname = create_slidev_header title := by
      rw [convert_to_slidev, hb, hc]
      simp
    refine ⟨?_, fun _ => he⟩
    rw [he, hc]
    constructor
    · intro hends
      rw [h] at hends
      exact absurd hends (by simp)
    · intro hp
      omega
  · have hpos : 0 < (slide_loop pname (split_dashes md) 0).2 := Nat.pos_of_ne_zero hc
    refine ⟨⟨fun _ => hpos, fun _ => ?_⟩, fun h0 => absurd h0 hc⟩
    rw [convert_to_slidev, if_pos hpos]
    exact ends_append _ _

/-- Claim C9 witness: for the empty raw document and the title
`My Talk`, no slide is emitted and the document is the bare header. -/
theorem end_slide_iff_witness :
    ends_list (create_slidev_header ("My Talk".toList)) end_mark = false
    ∧ ((ends_list (convert_to_slidev ([]) ("My Talk".toList) ("P".toList)) end_mark = true
        ↔ 0 < (slide_loop ("P".toList) (split_dashes ([])) 0).2)
      ∧ ((slide_loop ("P".toList) (split_dashes ([])) 0).2 = 0 →
          convert_to_slidev ([]) ("My Talk".toList) ("P".toList)
            = create_slidev_header ("My Talk".toList))) :=
  ⟨by decide, end_slide_iff ([]) ("My Talk".toList) ("P".toList) (by decide)⟩

/-- A prefix test fails as soon as the heads disagree. -/
theorem isPref_cons_false (a c : Char) (as l : List Char) (h : (a == c) = false) :
    List.isPrefixOf (a :: as) (c :: l) = false := by
  simp [List.isPrefixOf, h]

/-- Splitting a failed containment test at a cons cell. -/
theorem contains_parts (p : List Char) (c : Char) (l : List Char)
    (h : contains_sub p (c :: l) = false) :
    p.isPrefixOf (c :: l) = false ∧ contains_sub p l = false := by
  rw [contains_sub, Bool.or_eq_false_iff] at h
  exact h

/-- A head other than `%` neither starts nor blocks an encoded
backslash occurrence. -/
theorem contains5C_cons_ne (c : Char) (l : List Char) (h : (('%' : Char) == c) = false) :
    contains_sub (['%', '5', 'C']) (c :: l) = contains_sub (['%', '5', 'C']) l := by
  rw [contains_sub, isPref_cons_false _ _ _ _ h]
  simp

/-- A `%` head starts an occurrence only when `5C` follows. -/
theorem contains5C_cons_pct (l : List Char)
    (h : List.isPrefixOf (['5', 'C']) l = false) :
    contains_sub (['%', '5', 'C']) ('%' :: l) = contains_sub (['%', '5', 'C']) l := by
  rw [contains_sub]
  have e : (('%' : Char) == '%') = true := by decide
  simp only [List.isPrefixOf, e, Bool.true_and, h, Bool.false_or]

/-- A list none of whose characters is `%` contains no encoded
backslash token. -/
theorem no5C_of_no_pct (l : List Char)
    (h : ∀ c ∈ l, (('%' : Char) == c) = false) :
    contains_sub (['%', '5', 'C']) l = false := by
  induction l with
  | nil => rfl
  | cons c r ih =>
    rw [contains5C_cons_ne c r (h c (List.mem_cons_self c r))]
    exact ih (fun x hx => h x (List.mem_cons_of_mem c hx))

/-- Containment in a suffix implies containment in the whole, in
contrapositive form. -/
theorem contains_suffix_false (p u f : List Char)
    (h : contains_sub p (u ++ f) = false) : contains_sub p f = false := by
  induction u with
  | nil => exact h
  | cons c u ih =>
    rw [List.cons_append] at h
    exact ih (contains_parts p c (u ++ f) h).2

/-- The conditional cons equation for `repl_enc_bslash` outside the
`%5C` pattern. -/
theorem repl_enc_cons (c : Char) (r : List Char)
    (hne : ∀ r2 : List Char, c = '%' → r = '5' :: 'C' :: r2 → False) :
    repl_enc_bslash (c :: r) = c :: repl_enc_bslash r := by
  rw [repl_enc_bslash.eq_def]
  split
  · rename_i r2 heq
    injection heq with e1 e2
    exact (hne r2 e1 e2).elim
  · rename_i heq
    injection heq with e1 e2
    rw [e1, e2]
  · rename_i heq
    exact (List.cons_ne_nil c r heq).elim

/-- Decoding cannot create a leading `C`. -/
theorem repl_enc_no_C : ∀ r : List Char, List.isPrefixOf (['C']) r = false →
    List.isPrefixOf (['C']) (repl_enc_bslash r) = false := by
  intro r
  induction r using repl_enc_bslash.induct with
  | case1 r2 ih =>
    intro _
    rw [repl_enc_bslash]
    exact isPref_cons_false _ _ _ _ (by decide)
  | case2 c r2 hne ih =>
    intro h
    rw [repl_enc_cons c r2 hne]
    simp only [List.isPrefixOf] at h ⊢
    exact h
  | case3 => intro h; exact h

/-- Decoding cannot create a leading `5C`. -/
theorem repl_enc_no_5C : ∀ r : List Char, List.isPrefixOf (['5', 'C']) r = false →
    List.isPrefixOf (['5', 'C']) (repl_enc_bslash r) = false := by
  intro r
  induction r using repl_enc_bslash.induct with
  | case1 r2 ih =>
    intro _
    rw [repl_enc_bslash]
    exact isPref_cons_false _ _ _ _ (by decide)
  | case2 c r2 hne ih =>
    intro h
    rw [repl_enc_cons c r2 hne]
    by_cases h5 : (('5' : Char) == c) = true
    · have h' : List.isPrefixOf (['C']) r2 = false := by
        simp only [List.isPrefixOf, h5, Bool.true_and] at h
        exact h
      simp only [List.isPrefixOf, h5, Bool.true_and]
      exact repl_enc_no_C r2 h'
    · have h5' : (('5' : Char) == c) = false := by rw [Bool.eq_false_iff]; exact h5
      exact isPref_cons_false _ _ _ _ h5'
  | case3 => intro h; exact h

/-- The decoded path contains no encoded backslash token: the
scan replaces every occurrence and the slash replacement cannot
recreate one. -/
theorem repl_enc_no5C_all : ∀ l : List Char,
    contains_sub (['%', '5', 'C']) (repl_enc_bslash l) = false := by
  intro l
  induction l using repl_enc_bslash.induct with
  | case1 r ih =>
    rw [repl_enc_bslash, contains5C_cons_ne _ _ (by decide)]
    exact ih
  | case2 c r hne ih =>
    rw [repl_enc_cons c r hne]
    by_cases hp : (('%' : Char) == c) = true
    · have hr : List.isPrefixOf (['5', 'C']) r = false := by
        cases r with
        | nil => rfl
        | cons x xs =>
          by_cases hx : (('5' : Char) == x) = true
          · cases xs with
            | nil =>
              simp [List.isPrefixOf]
            | cons y ys =>
              by_cases hy : (('C' : Char) == y) = true
              · have ec : c = '%' := (eq_of_beq hp).symm
                have ex : x = '5' := (eq_of_beq hx).symm
                have ey : y = 'C' := (eq_of_beq hy).symm
                exact (hne ys ec (by rw [ex, ey])).elim
              · have hy' : (('C' : Char) == y) = false := by rw [Bool.eq_false_iff]; exact hy
                simp [List.isPrefixOf, hy']
          · have hx' : (('5' : Char) == x) = false := by rw [Bool.eq_false_iff]; exact hx
            exact isPref_cons_false _ _ _ _ hx'
      have ec : c = '%' := (eq_of_beq hp).symm
      rw [ec, contains5C_cons_pct _ (repl_enc_no_5C r hr)]
      exact ih
    · have hp' : (('%' : Char) == c) = false := by rw [Bool.eq_false_iff]; exact hp
      rw [contains5C_cons_ne _ _ hp']
      exact ih
  | case3 => rfl

/-- The conditional cons equation for `repl_space` off the space
character. -/
theorem repl_space_cons (c : Char) (r : List Char) (hne : c = ' ' → False) :
    repl_space (c :: r) = c :: repl_space r := by
  rw [repl_space.eq_def]
  split
  · rename_i heq
    injection heq with e1 _
    exact (hne e1).elim
  · rename_i heq
    injection heq with e1 e2
    rw [e1, e2]
  · rename_i heq
    exact (List.cons_ne_nil c r heq).elim

/-- Space encoding cannot create a leading `C`. -/
theorem repl_space_no_C : ∀ r : List Char, List.isPrefixOf (['C']) r = false →
    List.isPrefixOf (['C']) (repl_space r) = false := by
  intro r
  induction r using repl_space.induct with
  | case1 r2 ih =>
    intro _
    rw [repl_space]
    exact isPref_cons_false _ _ _ _ (by decide)
  | case2 c r2 hne ih =>
    intro h
    rw [repl_space_cons c r2 hne]
    simp only [List.isPrefixOf] at h ⊢
    exact h
  | case3 => intro h; exact h

/-- Space encoding cannot create a leading `5C`. -/
theorem repl_space_no_5C : ∀ r : List Char, List.isPrefixOf (['5', 'C']) r = false →
    List.isPrefixOf (['5', 'C']) (repl_space r) = false := by
  intro r
  induction r using repl_space.induct with
  | case1 r2 ih =>
    intro _
    rw [repl_space]
    exact isPref_cons_false _ _ _ _ (by decide)
  | case2 c r2 hne ih =>
    intro h
    rw [repl_space_cons c r2 hne]
    by_cases h5 : (('5' : Char) == c) = true
    · have h' : List.isPrefixOf (['C']) r2 = false := by
        simp only [List.isPrefixOf, h5, Bool.true_and] at h
        exact h
      simp only [List.isPrefixOf, h5, Bool.true_and]
      exact repl_space_no_C r2 h'
    · have h5' : (('5' : Char) == c) = false := by rw [Bool.eq_false_iff]; exact h5
      exact isPref_cons_false _ _ _ _ h5'
  | case3 => intro h; exact h

/-- Space encoding of a name free of the encoded backslash token
stays free of it (a `%20` insertion never assembles `%5C`). -/
theorem repl_space_keeps_no5C : ∀ l : List Char,
    contains_sub (['%', '5', 'C']) l = false →
    contains_sub (['%', '5', 'C']) (repl_space l) = false := by
  intro l
  induction l using repl_space.induct with
  | case1 r ih =>
    intro h
    have hr : contains_sub (['%', '5', 'C']) r = false := (contains_parts _ _ _ h).2
    rw [repl_space]
    rw [contains5C_cons_pct _ (isPref_cons_false _ _ _ _ (by decide))]
    rw [contains5C_cons_ne _ _ (by decide), contains5C_cons_ne _ _ (by decide)]
    exact ih hr
  | case2 c r hne ih =>
    intro h
    obtain ⟨h1, h2⟩ := contains_parts _ _ _ h
    rw [repl_space_cons c r hne]
    by_cases hp : (('%' : Char) == c) = true
    · have ec : c = '%' := (eq_of_beq hp).symm
      have hr5 : List.isPrefixOf (['5', 'C']) r = false := by
        rw [ec] at h1
        have e : (('%' : Char) == '%') = true := by decide
        simp only [List.isPrefixOf, e, Bool.true_and] at h1
        exact h1
      rw [ec, contains5C_cons_pct _ (repl_space_no_5C r hr5)]
      exact ih h2
    · have hp' : (('%' : Char) == c) = false := by rw [Bool.eq_false_iff]; exact hp
      rw [contains5C_cons_ne _ _ hp']
      exact ih h2
  | case3 => intro h; exact h

/-- A leading `5C` cannot appear in `a ++ '/' :: f` unless it
already appears in `a`: the slash blocks any straddling occurrence. -/
theorem pref_5C_append (a f : List Char)
    (h : List.isPrefixOf (['5', 'C']) a = false) :
    List.isPrefixOf (['5', 'C']) (a ++ '/' :: f) = false := by
  cases a with
  | nil => exact isPref_cons_false _ _ _ _ (by decide)
  | cons x xs =>
    by_cases hx : (('5' : Char) == x) = true
    · cases xs with
      | nil =>
        rw [List.cons_append, List.nil_append]
        simp only [List.isPrefixOf, hx, Bool.true_and]
        exact isPref_cons_false 'C' '/' [] f (by decide)
      | cons y ys =>
        simp only [List.cons_append]
        simp only [List.isPrefixOf, hx, Bool.true_and] at h ⊢
        exact h
    · have hx' : (('5' : Char) == x) = false := by rw [Bool.eq_false_iff]; exact hx
      rw [List.cons_append]
      exact isPref_cons_false _ _ _ _ hx'

/-- Joining two clean pieces across a slash keeps the whole clean:
an occurrence cannot straddle the separator. -/
theorem no5C_append_slash (a f : List Char)
    (ha : contains_sub (['%', '5', 'C']) a = false)
    (hf : contains_sub (['%', '5', 'C']) ('/' :: f) = false) :
    contains_sub (['%', '5', 'C']) (a ++ '/' :: f) = false := by
  induction a with
  | nil => exact hf
  | cons c a ih =>
    obtain ⟨h1, h2⟩ := contains_parts _ _ _ ha
    rw [List.cons_append]
    by_cases hp : (('%' : Char) == c) = true
    · have ec : c = '%' := (eq_of_beq hp).symm
      have ha5 : List.isPrefixOf (['5', 'C']) a = false := by
        rw [ec] at h1
        have e : (('%' : Char) == '%') = true := by decide
        simp only [List.isPrefixOf, e, Bool.true_and] at h1
        exact h1
      rw [ec, contains5C_cons_pct _ (pref_5C_append a f ha5)]
      exact ih h2
    · have hp' : (('%' : Char) == c) = false := by rw [Bool.eq_false_iff]; exact hp
      rw [contains5C_cons_ne _ _ hp']
      exact ih h2

/-- The fixed `./img/` directory prefix is transparent to the
encoded-backslash test. -/
theorem contains5C_img_dir (rest : List Char) :
    contains_sub (['%', '5', 'C']) ("./img/".toList ++ rest)
      = contains_sub (['%', '5', 'C']) rest := by
  show contains_sub (['%', '5', 'C']) ('.' :: '/' :: 'i' :: 'm' :: 'g' :: '/' :: rest) = _
  rw [contains5C_cons_ne _ _ (by decide), contains5C_cons_ne _ _ (by decide),
    contains5C_cons_ne _ _ (by decide), contains5C_cons_ne _ _ (by decide),
    contains5C_cons_ne _ _ (by decide), contains5C_cons_ne _ _ (by decide)]

/-- The decoded path is the part before the last slash plus its
final segment. -/
theorem last_seg_suffix (l : List Char) :
    (l.reverse.dropWhile (fun c => !(c == '/'))).reverse ++ last_seg l = l := by
  rw [last_seg, ← List.reverse_append, List.takeWhile_append_dropWhile, List.reverse_reverse]

/-- The final segment of a path contains no slash. -/
theorem last_seg_no_slash (l : List Char) :
    (last_seg l).all (fun c => !(c == '/')) = true := by
  rw [last_seg, List.all_reverse, List.all_eq_true]
  intro c hc
  have := List.mem_takeWhile_imp hc
  simpa using this

/-- Decimal digit characters stay in the `0`-`9` code range. -/
theorem digit_char_bound (d : Nat) (hd : d < 10) :
    48 ≤ (digit_char d).toNat ∧ (digit_char d).toNat ≤ 57 := by
  interval_cases d <;> exact ⟨by decide, by decide⟩

/-- All characters produced by the fueled decimal rendering are
decimal digits (given a digit-only accumulator). -/
theorem nat_digits_aux_bound : ∀ (fuel n : Nat) (acc : List Char),
    (∀ c ∈ acc, 48 ≤ c.toNat ∧ c.toNat ≤ 57) →
    ∀ c ∈ nat_digits_aux fuel n acc, 48 ≤ c.toNat ∧ c.toNat ≤ 57 := by
  intro fuel
  induction fuel with
  | zero => intro n acc hacc c hc; exact hacc c hc
  | succ fuel ih =>
    intro n acc hacc c hc
    rw [nat_digits_aux] at hc
    by_cases hn : n < 10
    · rw [if_pos hn] at hc
      rcases List.mem_cons.mp hc with h | h
      · rw [h]; exact digit_char_bound n hn
      · exact hacc c h
    · rw [if_neg hn] at hc
      refine ih (n / 10) _ ?_ c hc
      intro x hx
      rcases List.mem_cons.mp hx with h | h
      · rw [h]; exact digit_char_bound (n % 10) (Nat.mod_lt n (by omega))
      · exact hacc x h

/-- All characters of `str(n)` are decimal digits. -/
theorem nat_digits_bound (n : Nat) :
    ∀ c ∈ nat_digits n, 48 ≤ c.toNat ∧ c.toNat ≤ 57 :=
  nat_digits_aux_bound (n + 1) n [] (fun c hc => absurd hc (List.not_mem_nil c))

/-- A digit character is not a percent sign. -/
theorem digit_not_pct (c : Char) (h : 48 ≤ c.toNat ∧ c.toNat ≤ 57) :
    (('%' : Char) == c) = false := by
  rw [beq_eq_false_iff_ne]
  intro he
  rw [← he] at h
  have e : ('%' : Char).toNat = 37 := by decide
  omega

/-- A digit character is not a slash. -/
theorem digit_not_slash (c : Char) (h : 48 ≤ c.toNat ∧ c.toNat ≤ 57) :
    (c == '/') = false := by
  rw [beq_eq_false_iff_ne]
  intro he
  rw [he] at h
  have e : ('/' : Char).toNat = 47 := by decide
  omega

/-- The synthesized fallback name `slide_{n}.png` contains no
encoded backslash token. -/
theorem fallback_no5C (n : Nat) :
    contains_sub (['%', '5', 'C'])
      ("slide_".toList ++ (nat_digits n ++ ".png".toList)) = false := by
  refine no5C_of_no_pct _ ?_
  intro c hc
  rcases List.mem_append.mp hc with h | h
  · revert h
    have : ∀ c ∈ "slide_".toList, (('%' : Char) == c) = false := by decide
    exact this c
  · rcases List.mem_append.mp h with h2 | h2
    · exact digit_not_pct c (nat_digits_bound n c h2)
    · revert h2
      have : ∀ c ∈ ".png".toList, (('%' : Char) == c) = false := by decide
      exact this c

/-- The synthesized fallback name contains no slash. -/
theorem fallback_no_slash (n : Nat) :
    ("slide_".toList ++ (nat_digits n ++ ".png".toList)).all
      (fun c => !(c == '/')) = true := by
  rw [List.all_append, List.all_append]
  have h1 : ("slide_".toList).all (fun c => !(c == '/')) = true := by decide
  have h3 : (".png".toList).all (fun c => !(c == '/')) = true := by decide
  have h2 : (nat_digits n).all (fun c => !(c == '/')) = true := by
    rw [List.all_eq_true]
    intro c hc
    have hd := digit_not_slash c (nat_digits_bound n c hc)
    simp only [hd]
    rfl
  rw [h1, h2, h3]
  rfl

/-- Claim C7 counterexample.  For the image line
`![a%5Cb](c%5Cd.png)` the original path contains the encoded
backslash token, yet the rewritten reference still contains it: the
alt text is copied verbatim into the output, so the reference as a
whole is not free of the token. -/
theorem image_ref_counterexample :
    contains_sub (['%', '5', 'C']) ("c%5Cd.png".toList) = true
    ∧ convert_image_path ("![a%5Cb](c%5Cd.png)".toList) ("P".toList) 1
        = "![a%5Cb](./img/P/d.png)".toList
    ∧ contains_sub (['%', '5', 'C']) ("![a%5Cb](./img/P/d.png)".toList) = true := by
  refine ⟨by decide, by decide, by decide⟩

/-- Claim C7 amended.  For every image line, the rewritten PATH is
`./img/{urlEncodedPresentationName}/{filename}` where the filename
component contains no slash, and — when the presentation name is
itself free of the token — the whole rewritten path contains no
encoded backslash token (the alt text, copied verbatim, may retain
one).  Scenario C holds, and a line with no recognizable image
reference passes through unchanged. -/
theorem image_path_amended :
    (∀ (line pname : List Char) (n : Nat) (alt path : List Char),
        img_search line = some (alt, path) →
        contains_sub (['%', '5', 'C']) path = true →
        contains_sub (['%', '5', 'C']) pname = false →
        ∃ f : List Char,
          convert_image_path line pname n
            = "![".toList ++ alt ++ "](".toList
              ++ ("./img/".toList ++ repl_space pname ++ '/' :: f) ++ ")".toList
          ∧ contains_sub (['%', '5', 'C'])
              ("./img/".toList ++ repl_space pname ++ '/' :: f) = false
          ∧ f.all (fun c => !(c == '/')) = true)
    ∧ convert_image_path ("![](media/img1%5Cpic1.png)".toList) ("CS 101".toList) 1
        = "![](./img/CS%20101/pic1.png)".toList
    ∧ (∀ (line pname : List Char) (n : Nat),
        img_search line = none → convert_image_path line pname n = line) := by
  refine ⟨?_, by decide, ?_⟩
  · intro line pname n alt path hs _h5 hp
    have hclean : contains_sub (['%', '5', 'C']) (repl_enc_bslash path) = false :=
      repl_enc_no5C_all path
    by_cases hf : last_seg (repl_enc_bslash path) = []
    · refine ⟨"slide_".toList ++ (nat_digits n ++ ".png".toList), ?_, ?_, ?_⟩
      · simp only [convert_image_path, hs, simple_path, if_pos hf]
        simp [List.append_assoc]
      · rw [List.append_assoc, contains5C_img_dir]
        refine no5C_append_slash _ _ (repl_space_keeps_no5C pname hp) ?_
        rw [contains5C_cons_ne _ _ (by decide)]
        exact fallback_no5C n
      · exact fallback_no_slash n
    · refine ⟨last_seg (repl_enc_bslash path), ?_, ?_, ?_⟩
      · simp only [convert_image_path, hs, simple_path, if_neg hf]
      · have hfc : contains_sub (['%', '5', 'C']) (last_seg (repl_enc_bslash path)) = false := by
          refine contains_suffix_false _
            (((repl_enc_bslash path).reverse.dropWhile (fun c => !(c == '/'))).reverse) _ ?_
          rw [last_seg_suffix]
          exact hclean
        rw [List.append_assoc, contains5C_img_dir]
        refine no5C_append_slash _ _ (repl_space_keeps_no5C pname hp) ?_
        rw [contains5C_cons_ne _ _ (by decide)]
        exact hfc
      · exact last_seg_no_slash (repl_enc_bslash path)
  · intro line pname n hs
    simp only [convert_image_path, hs]

/-- Claim C7 amended witness at Scenario C's concrete input. -/
theorem image_path_amended_witness :
    ∃ f : List Char,
      convert_image_path ("![](media/img1%5Cpic1.png)".toList) ("CS 101".toList) 1
        = "![".toList ++ ([] : List Char) ++ "](".toList
          ++ ("./img/".toList ++ repl_space ("CS 101".toList) ++ '/' :: f) ++ ")".toList
      ∧ contains_sub (['%', '5', 'C'])
          ("./img/".toList ++ repl_space ("CS 101".toList) ++ '/' :: f) = false
      ∧ f.all (fun c => !(c == '/')) = true :=
  image_path_amended.1 ("![](media/img1%5Cpic1.png)".toList) ("CS 101".toList) 1
    ([]) ("media/img1%5Cpic1.png".toList) (by decide) (by decide) (by decide)
